import Mathlib

/-!
Verification of the `glam_rect` rectangle library (src/lib.rs).

The library provides one axis-aligned rectangle type per numeric domain:
`Rect` over `f32` (glam `Vec2`), `URect` over `u32` (glam `UVec2`) and
`IRect` over `i32` (glam `IVec2`).  Each rectangle stores a `top_left` and a
`bottom_right` corner and offers dimension queries, half-open containment,
intersection, area classification and translation.

Embedding choices:
* `u32` scalars are embedded as `ℕ`; arithmetic that can wrap is written with
  an explicit `% 2 ^ 32`.  Comparisons carry no wrapping, so theorems about
  comparison-only operations quantify over all of `ℕ`.
* `i32` scalars are embedded as `ℤ` with explicit two's-complement wrapping
  where overflow matters.
* `f32` scalars are embedded by the inductive `F32` below: NaN, the two
  infinities, and finite values carried as their exact rational value.  The
  source applies only `==`, `<`, `>=`, `.max`, `.min`, `+` and `-` to `f32`;
  the comparison operators and `max`/`min` are modelled exactly (IEEE-754
  comparisons are false on NaN; `max`/`min` ignore a NaN argument).  The two
  IEEE zeros are identified, which is invisible to every one of those
  operations up to `==`.  Finite addition and subtraction are modelled
  exactly, without IEEE rounding; no theorem below relies on the value of a
  rounded finite sum.
-/

/-- 2D vector with two named components, mirroring glam's
`Vec2` / `UVec2` / `IVec2` as used by the source. -/
structure V2 (α : Type) where
  x : α
  y : α
deriving DecidableEq, Repr

/-- Model of the `f32` values: NaN, negative infinity, finite values (by
their exact rational value, the two zeros identified), positive infinity. -/
inductive F32 where
  | nan
  | negInf
  | fin (q : ℚ)
  | posInf
deriving DecidableEq, Repr

namespace F32

/-- IEEE-754 `<` on `f32`: false whenever an operand is NaN. -/
def flt : F32 → F32 → Bool
  | nan, _ => false
  | _, nan => false
  | negInf, negInf => false
  | negInf, _ => true
  | _, negInf => false
  | fin a, fin b => a < b
  | fin _, posInf => true
  | posInf, _ => false

/-- IEEE-754 `<=` on `f32`: false whenever an operand is NaN. -/
def fle : F32 → F32 → Bool
  | nan, _ => false
  | _, nan => false
  | negInf, _ => true
  | _, negInf => false
  | fin a, fin b => a ≤ b
  | fin _, posInf => true
  | posInf, posInf => true
  | posInf, fin _ => false

/-- IEEE-754 `>=` on `f32` (used by `contains` in the source); equal to the
flipped `<=`. -/
def fge (a b : F32) : Bool := fle b a

/-- IEEE-754 `==` on `f32`: false whenever an operand is NaN (in particular
`NaN == NaN` is false); structural equality otherwise. -/
def feq : F32 → F32 → Bool
  | nan, _ => false
  | _, nan => false
  | negInf, negInf => true
  | fin a, fin b => a = b
  | posInf, posInf => true
  | _, _ => false

/-- Rust `f32::max` (IEEE maxNum): if one argument is NaN the other is
returned; otherwise the greater argument. -/
def fmax : F32 → F32 → F32
  | nan, b => b
  | a, nan => a
  | a, b => if fle a b then b else a

/-- Rust `f32::min` (IEEE minNum): if one argument is NaN the other is
returned; otherwise the smaller argument. -/
def fmin : F32 → F32 → F32
  | nan, b => b
  | a, nan => a
  | a, b => if fle a b then a else b

/-- `f32` negation. -/
def fneg : F32 → F32
  | nan => nan
  | negInf => posInf
  | fin q => fin (-q)
  | posInf => negInf

/-- `f32` addition.  NaN propagates and `∞ + (−∞)` is NaN, exactly as in
IEEE-754; a finite sum is modelled by its exact rational value (IEEE rounding
and overflow-to-infinity are not modelled — no theorem below depends on the
value of a finite sum). -/
def fadd : F32 → F32 → F32
  | nan, _ => nan
  | _, nan => nan
  | negInf, posInf => nan
  | posInf, negInf => nan
  | negInf, _ => negInf
  | _, negInf => negInf
  | posInf, _ => posInf
  | _, posInf => posInf
  | fin a, fin b => fin (a + b)

/-- `f32` subtraction, `a - b = a + (-b)` (exact in IEEE-754). -/
def fsub (a b : F32) : F32 := fadd a (fneg b)

end F32

open F32

/-- `u32` wrapping addition (release-mode Rust `+` on `u32`). -/
def u32add (a b : ℕ) : ℕ := (a + b) % 2 ^ 32

/-- `u32` wrapping subtraction (release-mode Rust `-` on `u32`); both
arguments are `u32` values, i.e. `< 2 ^ 32`. -/
def u32sub (a b : ℕ) : ℕ := (a + 2 ^ 32 - b) % 2 ^ 32

/-- `u32` checked subtraction: `none` models the debug-mode underflow panic
of Rust `-` on `u32` (a release build would wrap modulo `2 ^ 32`). -/
def u32checkedSub (a b : ℕ) : Option ℕ := if b ≤ a then some (a - b) else none

/-- Two's-complement wrap of an integer into the `i32` range. -/
def i32wrap (z : ℤ) : ℤ := (z + 2 ^ 31) % 2 ^ 32 - 2 ^ 31

/-- `i32` wrapping addition (release-mode Rust `+` on `i32`). -/
def i32add (a b : ℤ) : ℤ := i32wrap (a + b)

/-- `i32` wrapping subtraction (release-mode Rust `-` on `i32`). -/
def i32sub (a b : ℤ) : ℤ := i32wrap (a - b)

/-- `Rect` (src/lib.rs:7): axis-aligned rectangle over `f32`, stored as the
top left and the bottom right vertex. -/
structure Rect where
  top_left : V2 F32
  bottom_right : V2 F32
deriving DecidableEq, Repr

/-- `URect` (src/lib.rs:136): axis-aligned rectangle over `u32`. -/
structure URect where
  top_left : V2 ℕ
  bottom_right : V2 ℕ
deriving DecidableEq, Repr

/-- `IRect` (src/lib.rs:265): axis-aligned rectangle over `i32`. -/
structure IRect where
  top_left : V2 ℤ
  bottom_right : V2 ℤ
deriving DecidableEq, Repr

namespace Rect

/-- `Rect::new` (src/lib.rs:16): stores the two points verbatim. -/
def new (top_left bottom_right : V2 F32) : Rect := ⟨top_left, bottom_right⟩

/-- `Rect::width` (src/lib.rs:52): `bottom_right.x - top_left.x`. -/
def width (r : Rect) : F32 := fsub r.bottom_right.x r.top_left.x

/-- `Rect::height` (src/lib.rs:58): `bottom_right.y - top_left.y`. -/
def height (r : Rect) : F32 := fsub r.bottom_right.y r.top_left.y

/-- `Rect::contains` (src/lib.rs:72). -/
def contains (r : Rect) (point : V2 F32) : Bool :=
  fge point.x r.top_left.x && fge point.y r.top_left.y &&
    flt point.x r.bottom_right.x && flt point.y r.bottom_right.y

/-- `Rect::is_zero_area` (src/lib.rs:108). -/
def is_zero_area (r : Rect) : Bool :=
  feq r.top_left.x r.bottom_right.x || feq r.top_left.y r.bottom_right.y

/-- `Rect::is_positive_area` (src/lib.rs:113). -/
def is_positive_area (r : Rect) : Bool :=
  flt r.top_left.x r.bottom_right.x && flt r.top_left.y r.bottom_right.y

/-- `Rect::intersect` (src/lib.rs:85). -/
def intersect (a other : Rect) : Option Rect :=
  let result : Rect :=
    { top_left := ⟨fmax a.top_left.x other.top_left.x,
                   fmax a.top_left.y other.top_left.y⟩,
      bottom_right := ⟨fmin a.bottom_right.x other.bottom_right.x,
                       fmin a.bottom_right.y other.bottom_right.y⟩ }
  if result.is_positive_area then some result else none

/-- `Rect::ZERO` (src/lib.rs:105): both corners at `Vec2::ZERO`. -/
def ZERO : Rect := new ⟨fin 0, fin 0⟩ ⟨fin 0, fin 0⟩

/-- `Rect::with_offset` (src/lib.rs:120): adds the offset to each vertex. -/
def with_offset (r : Rect) (offset : V2 F32) : Rect :=
  new ⟨fadd r.top_left.x offset.x, fadd r.top_left.y offset.y⟩
      ⟨fadd r.bottom_right.x offset.x, fadd r.bottom_right.y offset.y⟩

/-- `Rect::with_negative_offset` (src/lib.rs:128): subtracts the offset from
each vertex. -/
def with_negative_offset (r : Rect) (offset : V2 F32) : Rect :=
  new ⟨fsub r.top_left.x offset.x, fsub r.top_left.y offset.y⟩
      ⟨fsub r.bottom_right.x offset.x, fsub r.bottom_right.y offset.y⟩

/-- The derived `PartialEq` on `Rect`: componentwise `f32` `==` (so a
rectangle with a NaN coordinate is not equal to itself). -/
def beq (a b : Rect) : Bool :=
  feq a.top_left.x b.top_left.x && feq a.top_left.y b.top_left.y &&
    feq a.bottom_right.x b.bottom_right.x && feq a.bottom_right.y b.bottom_right.y

end Rect

/-- `PartialEq` on `Option<Rect>`: `None == None`; `Some a == Some b` iff
`a == b` under the derived `PartialEq` of `Rect`. -/
def optRectBeq : Option Rect → Option Rect → Bool
  | none, none => true
  | some a, some b => Rect.beq a b
  | _, _ => false

namespace URect

/-- `URect::new` (src/lib.rs:145): stores the two points verbatim. -/
def new (top_left bottom_right : V2 ℕ) : URect := ⟨top_left, bottom_right⟩

/-- `URect::width` (src/lib.rs:181): `bottom_right.x - top_left.x` on `u32`;
`none` models the underflow panic of the unsigned subtraction. -/
def width (r : URect) : Option ℕ := u32checkedSub r.bottom_right.x r.top_left.x

/-- `URect::height` (src/lib.rs:187): `bottom_right.y - top_left.y` on `u32`;
`none` models the underflow panic of the unsigned subtraction. -/
def height (r : URect) : Option ℕ := u32checkedSub r.bottom_right.y r.top_left.y

/-- `URect::contains` (src/lib.rs:201). -/
def contains (r : URect) (point : V2 ℕ) : Bool :=
  decide (point.x ≥ r.top_left.x) && decide (point.y ≥ r.top_left.y) &&
    decide (point.x < r.bottom_right.x) && decide (point.y < r.bottom_right.y)

/-- `URect::is_zero_area` (src/lib.rs:237). -/
def is_zero_area (r : URect) : Bool :=
  decide (r.top_left.x = r.bottom_right.x) || decide (r.top_left.y = r.bottom_right.y)

/-- `URect::is_positive_area` (src/lib.rs:242). -/
def is_positive_area (r : URect) : Bool :=
  decide (r.top_left.x < r.bottom_right.x) && decide (r.top_left.y < r.bottom_right.y)

/-- `URect::intersect` (src/lib.rs:214). -/
def intersect (a other : URect) : Option URect :=
  let result : URect :=
    { top_left := ⟨max a.top_left.x other.top_left.x,
                   max a.top_left.y other.top_left.y⟩,
      bottom_right := ⟨min a.bottom_right.x other.bottom_right.x,
                       min a.bottom_right.y other.bottom_right.y⟩ }
  if result.is_positive_area then some result else none

/-- `URect::ZERO` (src/lib.rs:234): both corners at `UVec2::ZERO`. -/
def ZERO : URect := new ⟨0, 0⟩ ⟨0, 0⟩

/-- `URect::with_offset` (src/lib.rs:249): adds the offset to each vertex
(`u32` addition, wrapping). -/
def with_offset (r : URect) (offset : V2 ℕ) : URect :=
  new ⟨u32add r.top_left.x offset.x, u32add r.top_left.y offset.y⟩
      ⟨u32add r.bottom_right.x offset.x, u32add r.bottom_right.y offset.y⟩

/-- `URect::with_negative_offset` (src/lib.rs:257): subtracts the offset from
each vertex (`u32` subtraction, wrapping). -/
def with_negative_offset (r : URect) (offset : V2 ℕ) : URect :=
  new ⟨u32sub r.top_left.x offset.x, u32sub r.top_left.y offset.y⟩
      ⟨u32sub r.bottom_right.x offset.x, u32sub r.bottom_right.y offset.y⟩

end URect

namespace IRect

/-- `IRect::new` (src/lib.rs:274): stores the two points verbatim. -/
def new (top_left bottom_right : V2 ℤ) : IRect := ⟨top_left, bottom_right⟩

/-- `IRect::width` (src/lib.rs:310): `bottom_right.x - top_left.x` on `i32`
(wrapping). -/
def width (r : IRect) : ℤ := i32sub r.bottom_right.x r.top_left.x

/-- `IRect::height` (src/lib.rs:316): `bottom_right.y - top_left.y` on `i32`
(wrapping). -/
def height (r : IRect) : ℤ := i32sub r.bottom_right.y r.top_left.y

/-- `IRect::contains` (src/lib.rs:330). -/
def contains (r : IRect) (point : V2 ℤ) : Bool :=
  decide (point.x ≥ r.top_left.x) && decide (point.y ≥ r.top_left.y) &&
    decide (point.x < r.bottom_right.x) && decide (point.y < r.bottom_right.y)

/-- `IRect::is_zero_area` (src/lib.rs:366). -/
def is_zero_area (r : IRect) : Bool :=
  decide (r.top_left.x = r.bottom_right.x) || decide (r.top_left.y = r.bottom_right.y)

/-- `IRect::is_positive_area` (src/lib.rs:371). -/
def is_positive_area (r : IRect) : Bool :=
  decide (r.top_left.x < r.bottom_right.x) && decide (r.top_left.y < r.bottom_right.y)

/-- `IRect::intersect` (src/lib.rs:343). -/
def intersect (a other : IRect) : Option IRect :=
  let result : IRect :=
    { top_left := ⟨max a.top_left.x other.top_left.x,
                   max a.top_left.y other.top_left.y⟩,
      bottom_right := ⟨min a.bottom_right.x other.bottom_right.x,
                       min a.bottom_right.y other.bottom_right.y⟩ }
  if result.is_positive_area then some result else none

/-- The `ZERO` constant declared inside `impl IRect` (src/lib.rs:363).  Its
type in the source is `URect`, not `IRect`:
`pub const ZERO: URect = URect::new(UVec2::ZERO, UVec2::ZERO);`. -/
def ZERO : URect := URect.new ⟨0, 0⟩ ⟨0, 0⟩

/-- `IRect::with_offset` (src/lib.rs:378): adds the offset to each vertex
(`i32` addition, wrapping). -/
def with_offset (r : IRect) (offset : V2 ℤ) : IRect :=
  new ⟨i32add r.top_left.x offset.x, i32add r.top_left.y offset.y⟩
      ⟨i32add r.bottom_right.x offset.x, i32add r.bottom_right.y offset.y⟩

/-- `IRect::with_negative_offset` (src/lib.rs:386): subtracts the offset from
each vertex (`i32` subtraction, wrapping). -/
def with_negative_offset (r : IRect) (offset : V2 ℤ) : IRect :=
  new ⟨i32sub r.top_left.x offset.x, i32sub r.top_left.y offset.y⟩
      ⟨i32sub r.bottom_right.x offset.x, i32sub r.bottom_right.y offset.y⟩

end IRect

/-! Spec-side definitions (following the wording of the specification, for
comparison against the source-side `intersect`): the intersection candidate
whose top left corner is the componentwise maximum of the two top left
corners and whose bottom right corner is the componentwise minimum of the
two bottom right corners. -/

namespace Spec

/-- Spec wording: the intersection candidate, `f32` domain. -/
def candidateF (a b : Rect) : Rect :=
  { top_left := ⟨fmax a.top_left.x b.top_left.x, fmax a.top_left.y b.top_left.y⟩,
    bottom_right := ⟨fmin a.bottom_right.x b.bottom_right.x,
                     fmin a.bottom_right.y b.bottom_right.y⟩ }

/-- Spec wording: the intersection candidate, `u32` domain. -/
def candidateU (a b : URect) : URect :=
  { top_left := ⟨max a.top_left.x b.top_left.x, max a.top_left.y b.top_left.y⟩,
    bottom_right := ⟨min a.bottom_right.x b.bottom_right.x,
                     min a.bottom_right.y b.bottom_right.y⟩ }

/-- Spec wording: the intersection candidate, `i32` domain. -/
def candidateI (a b : IRect) : IRect :=
  { top_left := ⟨max a.top_left.x b.top_left.x, max a.top_left.y b.top_left.y⟩,
    bottom_right := ⟨min a.bottom_right.x b.bottom_right.x,
                     min a.bottom_right.y b.bottom_right.y⟩ }

end Spec

/-! Helper lemmas about the `f32` comparison model. -/

namespace F32

theorem ne_nan_of_fle {a b : F32} (h : fle a b = true) : a ≠ nan ∧ b ≠ nan := by
  cases a <;> cases b <;> simp_all [fle]

theorem ne_nan_of_flt {a b : F32} (h : flt a b = true) : a ≠ nan ∧ b ≠ nan := by
  cases a <;> cases b <;> simp_all [flt]

theorem fle_refl {a : F32} (h : a ≠ nan) : fle a a = true := by
  cases a <;> simp_all [fle]

theorem feq_refl {a : F32} (h : a ≠ nan) : feq a a = true := by
  cases a <;> simp_all [feq]

theorem fle_of_flt {a b : F32} (h : flt a b = true) : fle a b = true := by
  cases a <;> cases b <;> simp_all [flt, fle]
  linarith

theorem flt_trans {a b c : F32} (h1 : flt a b = true) (h2 : flt b c = true) :
    flt a c = true := by
  cases a <;> cases b <;> cases c <;> simp_all [flt]
  linarith

theorem fle_flt_trans {a b c : F32} (h1 : fle a b = true) (h2 : flt b c = true) :
    flt a c = true := by
  cases a <;> cases b <;> cases c <;> simp_all [fle, flt]
  linarith

theorem flt_fle_trans {a b c : F32} (h1 : flt a b = true) (h2 : fle b c = true) :
    flt a c = true := by
  cases a <;> cases b <;> cases c <;> simp_all [flt, fle]
  linarith

theorem fle_trans {a b c : F32} (h1 : fle a b = true) (h2 : fle b c = true) :
    fle a c = true := by
  cases a <;> cases b <;> cases c <;> simp_all [fle]
  linarith

theorem flt_asymm {a b : F32} (h : flt a b = true) : flt b a = false := by
  cases a <;> cases b <;> simp_all [flt]
  linarith

theorem feq_false_of_flt {a b : F32} (h : flt a b = true) :
    feq a b = false ∧ feq b a = false := by
  cases a <;> cases b <;> simp_all [flt, feq]
  constructor <;> intro h2 <;> simp_all

theorem flt_false_of_feq {a b : F32} (h : feq a b = true) : flt a b = false := by
  cases a <;> cases b <;> simp_all [feq, flt]

theorem fmax_self (a : F32) : fmax a a = a := by
  cases a <;> simp [fmax, fle]

theorem fmin_self (a : F32) : fmin a a = a := by
  cases a <;> simp [fmin, fle]

theorem fmax_comm (a b : F32) : fmax a b = fmax b a := by
  cases a <;> cases b <;> simp [fmax, fle]
  case fin.fin p q =>
    rcases lt_trichotomy p q with h | h | h
    · simp [le_of_lt h, not_le.mpr h]
    · simp [h]
    · simp [le_of_lt h, not_le.mpr h]

theorem fmin_comm (a b : F32) : fmin a b = fmin b a := by
  cases a <;> cases b <;> simp [fmin, fle]
  case fin.fin p q =>
    rcases lt_trichotomy p q with h | h | h
    · simp [le_of_lt h, not_le.mpr h]
    · simp [h]
    · simp [le_of_lt h, not_le.mpr h]

theorem fmax_eq_ite {a b : F32} (ha : a ≠ nan) (hb : b ≠ nan) :
    fmax a b = if fle a b then b else a := by
  cases a <;> cases b <;> simp_all [fmax]

theorem fmin_eq_ite {a b : F32} (ha : a ≠ nan) (hb : b ≠ nan) :
    fmin a b = if fle a b then a else b := by
  cases a <;> cases b <;> simp_all [fmin]

theorem fmax_eq_or (a b : F32) : fmax a b = a ∨ fmax a b = b := by
  cases a <;> cases b <;> simp only [fmax] <;>
    first
      | exact Or.inl (by trivial)
      | exact Or.inr (by trivial)
      | (split
         · exact Or.inr rfl
         · exact Or.inl rfl)

theorem fmin_eq_or (a b : F32) : fmin a b = a ∨ fmin a b = b := by
  cases a <;> cases b <;> simp only [fmin] <;>
    first
      | exact Or.inl (by trivial)
      | exact Or.inr (by trivial)
      | (split
         · exact Or.inl rfl
         · exact Or.inr rfl)

theorem fle_of_not_fle {a b : F32} (ha : a ≠ nan) (hb : b ≠ nan)
    (h : fle a b = false) : fle b a = true := by
  cases a <;> cases b <;> simp_all [fle]
  linarith

theorem fle_fmax_left {a b : F32} (ha : a ≠ nan) (hb : b ≠ nan) :
    fle a (fmax a b) = true := by
  rw [fmax_eq_ite ha hb]
  by_cases h : fle a b = true
  · rw [if_pos h]; exact h
  · rw [if_neg h]; exact fle_refl ha

theorem fle_fmax_right {a b : F32} (ha : a ≠ nan) (hb : b ≠ nan) :
    fle b (fmax a b) = true := by
  rw [fmax_eq_ite ha hb]
  by_cases h : fle a b = true
  · rw [if_pos h]; exact fle_refl hb
  · rw [if_neg h]; exact fle_of_not_fle ha hb (by simpa using h)

theorem fmin_fle_left {a b : F32} (ha : a ≠ nan) (hb : b ≠ nan) :
    fle (fmin a b) a = true := by
  rw [fmin_eq_ite ha hb]
  by_cases h : fle a b = true
  · rw [if_pos h]; exact fle_refl ha
  · rw [if_neg h]; exact fle_of_not_fle ha hb (by simpa using h)

theorem fmin_fle_right {a b : F32} (ha : a ≠ nan) (hb : b ≠ nan) :
    fle (fmin a b) b = true := by
  rw [fmin_eq_ite ha hb]
  by_cases h : fle a b = true
  · rw [if_pos h]; exact h
  · rw [if_neg h]; exact fle_refl hb

theorem fmax_fle_of {a b c : F32} (h1 : fle a c = true) (h2 : fle b c = true) :
    fle (fmax a b) c = true := by
  rcases fmax_eq_or a b with h | h <;> rw [h] <;> assumption

theorem flt_fmin_of {a b c : F32} (h1 : flt c a = true) (h2 : flt c b = true) :
    flt c (fmin a b) = true := by
  rcases fmin_eq_or a b with h | h <;> rw [h] <;> assumption

end F32

/-! Shared helper lemmas about the rectangle operations. -/

/-- Unfolding lemma: `Rect::intersect` returns the spec candidate exactly
when the candidate has positive area. -/
theorem Rect.intersect_eq_iteF (a b : Rect) :
    a.intersect b =
      if (Spec.candidateF a b).is_positive_area then some (Spec.candidateF a b)
      else none := rfl

/-- Unfolding lemma: `URect::intersect` returns the spec candidate exactly
when the candidate has positive area. -/
theorem URect.intersect_eq_iteU (a b : URect) :
    a.intersect b =
      if (Spec.candidateU a b).is_positive_area then some (Spec.candidateU a b)
      else none := rfl

/-- Unfolding lemma: `IRect::intersect` returns the spec candidate exactly
when the candidate has positive area. -/
theorem IRect.intersect_eq_iteI (a b : IRect) :
    a.intersect b =
      if (Spec.candidateI a b).is_positive_area then some (Spec.candidateI a b)
      else none := rfl

theorem Spec.candidateF_self (r : Rect) : Spec.candidateF r r = r := by
  simp [Spec.candidateF, F32.fmax_self, F32.fmin_self]

theorem Spec.candidateU_self (r : URect) : Spec.candidateU r r = r := by
  simp [Spec.candidateU]

theorem Spec.candidateI_self (r : IRect) : Spec.candidateI r r = r := by
  simp [Spec.candidateI]

/-- A rectangle with positive area has no NaN coordinate, so the derived
`PartialEq` is reflexive on it. -/
theorem Rect.beq_self_of_positive {r : Rect} (h : r.is_positive_area = true) :
    Rect.beq r r = true := by
  have hx : flt r.top_left.x r.bottom_right.x = true := by
    simp [Rect.is_positive_area] at h; exact h.1
  have hy : flt r.top_left.y r.bottom_right.y = true := by
    simp [Rect.is_positive_area] at h; exact h.2
  have h1 := F32.ne_nan_of_flt hx
  have h2 := F32.ne_nan_of_flt hy
  simp [Rect.beq, F32.feq_refl h1.1, F32.feq_refl h1.2,
    F32.feq_refl h2.1, F32.feq_refl h2.2]

/-- Non-inverted ("valid") rectangle, `f32` domain: each top left coordinate
is at most the corresponding bottom right coordinate (IEEE comparison, so a
rectangle with a NaN corner is not non-inverted). -/
def Rect.nonInverted (r : Rect) : Prop :=
  fle r.top_left.x r.bottom_right.x = true ∧ fle r.top_left.y r.bottom_right.y = true

/-- Non-inverted ("valid") rectangle, `u32` domain. -/
def URect.nonInverted (r : URect) : Prop :=
  r.top_left.x ≤ r.bottom_right.x ∧ r.top_left.y ≤ r.bottom_right.y

/-- Non-inverted ("valid") rectangle, `i32` domain. -/
def IRect.nonInverted (r : IRect) : Prop :=
  r.top_left.x ≤ r.bottom_right.x ∧ r.top_left.y ≤ r.bottom_right.y

instance (r : Rect) : Decidable r.nonInverted := by
  unfold Rect.nonInverted; infer_instance

instance (r : URect) : Decidable r.nonInverted := by
  unfold URect.nonInverted; infer_instance

instance (r : IRect) : Decidable r.nonInverted := by
  unfold IRect.nonInverted; infer_instance

/-- A zero-area rectangle does not have positive area (`f32` domain): an
equal pair of coordinates is never strictly ordered. -/
theorem Rect.not_positive_of_zeroF {r : Rect} (h : r.is_zero_area = true) :
    r.is_positive_area = false := by
  simp [Rect.is_zero_area] at h
  rcases h with h | h
  · simp [Rect.is_positive_area, F32.flt_false_of_feq h]
  · simp [Rect.is_positive_area, F32.flt_false_of_feq h]

/-- A zero-area rectangle does not have positive area (`u32` domain). -/
theorem URect.not_positive_of_zeroU {r : URect} (h : r.is_zero_area = true) :
    r.is_positive_area = false := by
  simp [URect.is_zero_area] at h
  simp [URect.is_positive_area]
  omega

/-- A zero-area rectangle does not have positive area (`i32` domain). -/
theorem IRect.not_positive_of_zeroI {r : IRect} (h : r.is_zero_area = true) :
    r.is_positive_area = false := by
  simp [IRect.is_zero_area] at h
  simp [IRect.is_positive_area]
  omega

/-! The claims. -/

/-- C1: in each of the three domains, `contains(p)` is true iff
`top_left.x <= p.x` and `p.x < bottom_right.x` and `top_left.y <= p.y` and
`p.y < bottom_right.y` — inclusive on the lower bound and exclusive on the
upper bound, on both axes. -/
theorem claim_C1_contains_halfopen :
    (∀ (r : Rect) (p : V2 F32), r.contains p = true ↔
      (fle r.top_left.x p.x = true ∧ flt p.x r.bottom_right.x = true ∧
        fle r.top_left.y p.y = true ∧ flt p.y r.bottom_right.y = true)) ∧
    (∀ (r : URect) (p : V2 ℕ), r.contains p = true ↔
      (r.top_left.x ≤ p.x ∧ p.x < r.bottom_right.x ∧
        r.top_left.y ≤ p.y ∧ p.y < r.bottom_right.y)) ∧
    (∀ (r : IRect) (p : V2 ℤ), r.contains p = true ↔
      (r.top_left.x ≤ p.x ∧ p.x < r.bottom_right.x ∧
        r.top_left.y ≤ p.y ∧ p.y < r.bottom_right.y)) := by
  refine ⟨fun r p => ?_, fun r p => ?_, fun r p => ?_⟩ <;>
    simp [Rect.contains, URect.contains, IRect.contains, fge] <;> tauto

/-- C2: in each domain, `intersect` builds the candidate whose top left is
the componentwise max of the top left corners and whose bottom right is the
componentwise min of the bottom right corners, returns it exactly when
`is_positive_area()` holds of it, and in particular returns `None` when the
candidate has exactly zero area (touching rectangles). -/
theorem claim_C2_intersect_candidate :
    (∀ a b : Rect, a.intersect b =
      if (Spec.candidateF a b).is_positive_area then some (Spec.candidateF a b)
      else none) ∧
    (∀ a b : URect, a.intersect b =
      if (Spec.candidateU a b).is_positive_area then some (Spec.candidateU a b)
      else none) ∧
    (∀ a b : IRect, a.intersect b =
      if (Spec.candidateI a b).is_positive_area then some (Spec.candidateI a b)
      else none) ∧
    (∀ a b : Rect, (Spec.candidateF a b).is_zero_area = true →
      a.intersect b = none) ∧
    (∀ a b : URect, (Spec.candidateU a b).is_zero_area = true →
      a.intersect b = none) ∧
    (∀ a b : IRect, (Spec.candidateI a b).is_zero_area = true →
      a.intersect b = none) := by
  refine ⟨fun _ _ => rfl, fun _ _ => rfl, fun _ _ => rfl,
    fun a b h => ?_, fun a b h => ?_, fun a b h => ?_⟩
  · rw [Rect.intersect_eq_iteF, if_neg]
    simp [Rect.not_positive_of_zeroF h]
  · rw [URect.intersect_eq_iteU, if_neg]
    simp [URect.not_positive_of_zeroU h]
  · rw [IRect.intersect_eq_iteI, if_neg]
    simp [IRect.not_positive_of_zeroI h]

/-- Witness for C2: the specification's touching-but-not-overlapping example
`URect((100,100),(200,200))` and `URect((100,200),(200,300))` — the candidate
has exactly zero area and the intersection is `None`. -/
theorem claim_C2_witness :
    (Spec.candidateU ⟨⟨100, 100⟩, ⟨200, 200⟩⟩ ⟨⟨100, 200⟩, ⟨200, 300⟩⟩).is_zero_area
        = true ∧
    URect.intersect ⟨⟨100, 100⟩, ⟨200, 200⟩⟩ ⟨⟨100, 200⟩, ⟨200, 300⟩⟩ = none :=
  ⟨by decide, claim_C2_intersect_candidate.2.2.2.2.1 _ _ (by decide)⟩

/-- C6: the `ZERO` constants of `Rect` and `URect` have both corners at the
domain's zero point and zero area; but the `ZERO` constant declared in the
`impl IRect` block of the source is the unsigned-domain rectangle — it equals
`URect::ZERO` and its type is `URect`, not `IRect`. -/
theorem claim_C6_zero_behavior :
    Rect.ZERO.top_left = ⟨fin 0, fin 0⟩ ∧ Rect.ZERO.bottom_right = ⟨fin 0, fin 0⟩ ∧
    Rect.ZERO.is_zero_area = true ∧
    URect.ZERO.top_left = ⟨0, 0⟩ ∧ URect.ZERO.bottom_right = ⟨0, 0⟩ ∧
    URect.ZERO.is_zero_area = true ∧
    IRect.ZERO = URect.ZERO ∧ URect.is_zero_area IRect.ZERO = true := by
  decide

/-- C10: in each domain, a rectangle that contains some point has positive
area; equivalently, a zero-area or inverted rectangle contains no point. -/
theorem claim_C10_contains_implies_positive :
    (∀ (r : Rect) (p : V2 F32), r.contains p = true → r.is_positive_area = true) ∧
    (∀ (r : URect) (p : V2 ℕ), r.contains p = true → r.is_positive_area = true) ∧
    (∀ (r : IRect) (p : V2 ℤ), r.contains p = true → r.is_positive_area = true) := by
  refine ⟨fun r p h => ?_, fun r p h => ?_, fun r p h => ?_⟩
  · simp only [Rect.contains, fge, Bool.and_eq_true] at h
    obtain ⟨⟨⟨h1, h2⟩, h3⟩, h4⟩ := h
    simp [Rect.is_positive_area]
    exact ⟨F32.fle_flt_trans h1 h3, F32.fle_flt_trans h2 h4⟩
  · simp [URect.contains] at h
    simp [URect.is_positive_area]
    omega
  · simp [IRect.contains] at h
    simp [IRect.is_positive_area]
    omega

/-- Witness for C10: the unit square at the origin (`f32` domain) contains
the origin and indeed has positive area. -/
theorem claim_C10_witness :
    Rect.contains ⟨⟨fin 0, fin 0⟩, ⟨fin 1, fin 1⟩⟩ ⟨fin 0, fin 0⟩ = true ∧
    Rect.is_positive_area ⟨⟨fin 0, fin 0⟩, ⟨fin 1, fin 1⟩⟩ = true :=
  ⟨by decide, claim_C10_contains_implies_positive.1 ⟨⟨fin 0, fin 0⟩, ⟨fin 1, fin 1⟩⟩
    ⟨fin 0, fin 0⟩ (by decide)⟩

/-- C3: in each domain, a positive-area rectangle intersected with itself
gives back itself (`Some r`, equality taken as the source's `PartialEq`). -/
theorem claim_C3_self_intersection :
    (∀ r : Rect, r.is_positive_area = true →
      optRectBeq (r.intersect r) (some r) = true) ∧
    (∀ r : URect, r.is_positive_area = true → r.intersect r = some r) ∧
    (∀ r : IRect, r.is_positive_area = true → r.intersect r = some r) := by
  refine ⟨fun r h => ?_, fun r h => ?_, fun r h => ?_⟩
  · rw [Rect.intersect_eq_iteF, Spec.candidateF_self, if_pos h]
    simp [optRectBeq, Rect.beq_self_of_positive h]
  · rw [URect.intersect_eq_iteU, Spec.candidateU_self, if_pos h]
  · rw [IRect.intersect_eq_iteI, Spec.candidateI_self, if_pos h]

/-- Witness for C3: a concrete positive-area `URect` self-intersects to
itself. -/
theorem claim_C3_witness :
    URect.is_positive_area ⟨⟨0, 0⟩, ⟨2, 3⟩⟩ = true ∧
    URect.intersect ⟨⟨0, 0⟩, ⟨2, 3⟩⟩ ⟨⟨0, 0⟩, ⟨2, 3⟩⟩ = some ⟨⟨0, 0⟩, ⟨2, 3⟩⟩ :=
  ⟨by decide, claim_C3_self_intersection.2.1 ⟨⟨0, 0⟩, ⟨2, 3⟩⟩ (by decide)⟩

/-- C4: in each domain and with no precondition, intersection is symmetric:
`a.intersect(b) == b.intersect(a)` (equality taken as the source's
`PartialEq` on `Option`). -/
theorem claim_C4_intersect_symm :
    (∀ a b : Rect, optRectBeq (a.intersect b) (b.intersect a) = true) ∧
    (∀ a b : URect, a.intersect b = b.intersect a) ∧
    (∀ a b : IRect, a.intersect b = b.intersect a) := by
  refine ⟨fun a b => ?_, fun a b => ?_, fun a b => ?_⟩
  · have hc : Spec.candidateF a b = Spec.candidateF b a := by
      simp only [Spec.candidateF]
      rw [F32.fmax_comm a.top_left.x, F32.fmax_comm a.top_left.y,
        F32.fmin_comm a.bottom_right.x, F32.fmin_comm a.bottom_right.y]
    rw [Rect.intersect_eq_iteF, Rect.intersect_eq_iteF, hc]
    by_cases h : (Spec.candidateF b a).is_positive_area = true
    · rw [if_pos h]
      simp [optRectBeq, Rect.beq_self_of_positive h]
    · rw [if_neg h]
      rfl
  · have hc : Spec.candidateU a b = Spec.candidateU b a := by
      simp only [Spec.candidateU]
      rw [max_comm a.top_left.x, max_comm a.top_left.y,
        min_comm a.bottom_right.x, min_comm a.bottom_right.y]
    rw [URect.intersect_eq_iteU, URect.intersect_eq_iteU, hc]
  · have hc : Spec.candidateI a b = Spec.candidateI b a := by
      simp only [Spec.candidateI]
      rw [max_comm a.top_left.x, max_comm a.top_left.y,
        min_comm a.bottom_right.x, min_comm a.bottom_right.y]
    rw [IRect.intersect_eq_iteI, IRect.intersect_eq_iteI, hc]

/-- C5: in each domain, `is_zero_area()` is true iff one pair of opposite
coordinates is equal (OR of the two axes), `is_positive_area()` is true iff
both pairs are strictly ordered (AND), and consequently an inverted
rectangle (`top_left.x > bottom_right.x` with `top_left.y < bottom_right.y`)
is neither zero-area nor positive-area. -/
theorem claim_C5_area_predicates :
    (∀ r : Rect,
      (r.is_zero_area = true ↔
        (feq r.top_left.x r.bottom_right.x = true ∨
          feq r.top_left.y r.bottom_right.y = true)) ∧
      (r.is_positive_area = true ↔
        (flt r.top_left.x r.bottom_right.x = true ∧
          flt r.top_left.y r.bottom_right.y = true)) ∧
      (flt r.bottom_right.x r.top_left.x = true →
        flt r.top_left.y r.bottom_right.y = true →
        r.is_zero_area = false ∧ r.is_positive_area = false)) ∧
    (∀ r : URect,
      (r.is_zero_area = true ↔
        (r.top_left.x = r.bottom_right.x ∨ r.top_left.y = r.bottom_right.y)) ∧
      (r.is_positive_area = true ↔
        (r.top_left.x < r.bottom_right.x ∧ r.top_left.y < r.bottom_right.y)) ∧
      (r.bottom_right.x < r.top_left.x → r.top_left.y < r.bottom_right.y →
        r.is_zero_area = false ∧ r.is_positive_area = false)) ∧
    (∀ r : IRect,
      (r.is_zero_area = true ↔
        (r.top_left.x = r.bottom_right.x ∨ r.top_left.y = r.bottom_right.y)) ∧
      (r.is_positive_area = true ↔
        (r.top_left.x < r.bottom_right.x ∧ r.top_left.y < r.bottom_right.y)) ∧
      (r.bottom_right.x < r.top_left.x → r.top_left.y < r.bottom_right.y →
        r.is_zero_area = false ∧ r.is_positive_area = false)) := by
  refine ⟨fun r => ⟨?_, ?_, fun h1 h2 => ?_⟩, fun r => ⟨?_, ?_, fun h1 h2 => ?_⟩,
    fun r => ⟨?_, ?_, fun h1 h2 => ?_⟩⟩
  · simp [Rect.is_zero_area]
  · simp [Rect.is_positive_area]
  · exact ⟨by simp [Rect.is_zero_area, (F32.feq_false_of_flt h1).2,
        (F32.feq_false_of_flt h2).1],
      by simp [Rect.is_positive_area, F32.flt_asymm h1]⟩
  · simp [URect.is_zero_area]
  · simp [URect.is_positive_area]
  · exact ⟨by simp [URect.is_zero_area]; omega, by simp [URect.is_positive_area]; omega⟩
  · simp [IRect.is_zero_area]
  · simp [IRect.is_positive_area]
  · exact ⟨by simp [IRect.is_zero_area]; omega, by simp [IRect.is_positive_area]; omega⟩

/-- Witness for C5: the specification's inverted example `((10,0),(0,10))`
(here in the `u32` domain) is neither zero-area nor positive-area. -/
theorem claim_C5_witness :
    ((0 : ℕ) < 10 ∧ (0 : ℕ) < 10) ∧
    URect.is_zero_area ⟨⟨10, 0⟩, ⟨0, 10⟩⟩ = false ∧
    URect.is_positive_area ⟨⟨10, 0⟩, ⟨0, 10⟩⟩ = false :=
  ⟨⟨by decide, by decide⟩,
    ((claim_C5_area_predicates.2.1 ⟨⟨10, 0⟩, ⟨0, 10⟩⟩).2.2 (by decide) (by decide)).1,
    ((claim_C5_area_predicates.2.1 ⟨⟨10, 0⟩, ⟨0, 10⟩⟩).2.2 (by decide) (by decide)).2⟩

/-- Round trip of `u32` wrapping add and sub for in-range values. -/
theorem u32_roundtrip {a v : ℕ} (ha : a < 2 ^ 32) (hv : v < 2 ^ 32) :
    u32sub (u32add a v) v = a := by
  simp only [u32add, u32sub]
  omega

/-- Round trip of `i32` wrapping add and sub for in-range values. -/
theorem i32_roundtrip {a : ℤ} (h1 : -2 ^ 31 ≤ a) (h2 : a < 2 ^ 31) (v : ℤ) :
    i32sub (i32add a v) v = a := by
  simp only [i32add, i32sub, i32wrap]
  omega

/-- C7 as stated is false on the code: two non-inverted rectangles that are
disjoint with a gap produce an inverted candidate.  Concrete input in the
signed domain: `a = ((0,0),(1,1))` and `b = ((5,5),(6,6))` are both
non-inverted, yet the candidate is `((5,5),(1,1))`, inverted on both axes. -/
theorem claim_C7_counterexample :
    IRect.nonInverted ⟨⟨0, 0⟩, ⟨1, 1⟩⟩ ∧ IRect.nonInverted ⟨⟨5, 5⟩, ⟨6, 6⟩⟩ ∧
    ¬ IRect.nonInverted (Spec.candidateI ⟨⟨0, 0⟩, ⟨1, 1⟩⟩ ⟨⟨5, 5⟩, ⟨6, 6⟩⟩) := by
  decide

/-- C7 (amended): for non-inverted inputs in each domain, the intersection
candidate has positive area exactly when some point lies in both rectangles,
so testing the candidate's own `is_positive_area` is a correct intersection
test; the candidate itself can be inverted when the inputs are disjoint with
a gap. -/
theorem claim_C7_amended :
    (∀ a b : Rect, a.nonInverted → b.nonInverted →
      ((Spec.candidateF a b).is_positive_area = true ↔
        ∃ p : V2 F32, a.contains p = true ∧ b.contains p = true)) ∧
    (∀ a b : URect, a.nonInverted → b.nonInverted →
      ((Spec.candidateU a b).is_positive_area = true ↔
        ∃ p : V2 ℕ, a.contains p = true ∧ b.contains p = true)) ∧
    (∀ a b : IRect, a.nonInverted → b.nonInverted →
      ((Spec.candidateI a b).is_positive_area = true ↔
        ∃ p : V2 ℤ, a.contains p = true ∧ b.contains p = true)) := by
  refine ⟨fun a b ha hb => ?_, fun a b ha hb => ?_, fun a b ha hb => ?_⟩
  · obtain ⟨hax, hay⟩ := ha
    obtain ⟨hbx, hby⟩ := hb
    have hA := F32.ne_nan_of_fle hax
    have hB := F32.ne_nan_of_fle hay
    have hC := F32.ne_nan_of_fle hbx
    have hD := F32.ne_nan_of_fle hby
    constructor
    · intro hpos
      simp only [Spec.candidateF, Rect.is_positive_area, Bool.and_eq_true] at hpos
      obtain ⟨hx, hy⟩ := hpos
      refine ⟨⟨fmax a.top_left.x b.top_left.x, fmax a.top_left.y b.top_left.y⟩,
        ?_, ?_⟩
      · simp only [Rect.contains, fge, Bool.and_eq_true]
        exact ⟨⟨⟨F32.fle_fmax_left hA.1 hC.1, F32.fle_fmax_left hB.1 hD.1⟩,
          F32.flt_fle_trans hx (F32.fmin_fle_left hA.2 hC.2)⟩,
          F32.flt_fle_trans hy (F32.fmin_fle_left hB.2 hD.2)⟩
      · simp only [Rect.contains, fge, Bool.and_eq_true]
        exact ⟨⟨⟨F32.fle_fmax_right hA.1 hC.1, F32.fle_fmax_right hB.1 hD.1⟩,
          F32.flt_fle_trans hx (F32.fmin_fle_right hA.2 hC.2)⟩,
          F32.flt_fle_trans hy (F32.fmin_fle_right hB.2 hD.2)⟩
    · rintro ⟨p, hp1, hp2⟩
      simp only [Rect.contains, fge, Bool.and_eq_true] at hp1 hp2
      obtain ⟨⟨⟨a1, a2⟩, a3⟩, a4⟩ := hp1
      obtain ⟨⟨⟨b1, b2⟩, b3⟩, b4⟩ := hp2
      simp only [Spec.candidateF, Rect.is_positive_area, Bool.and_eq_true]
      exact ⟨F32.fle_flt_trans (F32.fmax_fle_of a1 b1) (F32.flt_fmin_of a3 b3),
        F32.fle_flt_trans (F32.fmax_fle_of a2 b2) (F32.flt_fmin_of a4 b4)⟩
  · constructor
    · intro hpos
      simp only [Spec.candidateU, URect.is_positive_area, Bool.and_eq_true,
        decide_eq_true_eq] at hpos
      refine ⟨⟨max a.top_left.x b.top_left.x, max a.top_left.y b.top_left.y⟩,
        ?_, ?_⟩ <;>
        simp only [URect.contains, Bool.and_eq_true, decide_eq_true_eq, ge_iff_le] <;>
        omega
    · rintro ⟨p, hp1, hp2⟩
      simp only [URect.contains, Bool.and_eq_true, decide_eq_true_eq, ge_iff_le]
        at hp1 hp2
      simp only [Spec.candidateU, URect.is_positive_area, Bool.and_eq_true,
        decide_eq_true_eq]
      omega
  · constructor
    · intro hpos
      simp only [Spec.candidateI, IRect.is_positive_area, Bool.and_eq_true,
        decide_eq_true_eq] at hpos
      refine ⟨⟨max a.top_left.x b.top_left.x, max a.top_left.y b.top_left.y⟩,
        ?_, ?_⟩ <;>
        simp only [IRect.contains, Bool.and_eq_true, decide_eq_true_eq, ge_iff_le] <;>
        omega
    · rintro ⟨p, hp1, hp2⟩
      simp only [IRect.contains, Bool.and_eq_true, decide_eq_true_eq, ge_iff_le]
        at hp1 hp2
      simp only [Spec.candidateI, IRect.is_positive_area, Bool.and_eq_true,
        decide_eq_true_eq]
      omega

/-- Witness for C7 (amended): two concrete overlapping non-inverted `URect`s. -/
theorem claim_C7_witness :
    URect.nonInverted ⟨⟨0, 0⟩, ⟨4, 4⟩⟩ ∧ URect.nonInverted ⟨⟨2, 2⟩, ⟨6, 6⟩⟩ ∧
    ((Spec.candidateU ⟨⟨0, 0⟩, ⟨4, 4⟩⟩ ⟨⟨2, 2⟩, ⟨6, 6⟩⟩).is_positive_area = true ↔
      ∃ p : V2 ℕ, URect.contains ⟨⟨0, 0⟩, ⟨4, 4⟩⟩ p = true ∧
        URect.contains ⟨⟨2, 2⟩, ⟨6, 6⟩⟩ p = true) :=
  ⟨by decide, by decide,
    claim_C7_amended.2.1 ⟨⟨0, 0⟩, ⟨4, 4⟩⟩ ⟨⟨2, 2⟩, ⟨6, 6⟩⟩ (by decide) (by decide)⟩

/-- C8 as stated is false on the code in the `f32` domain: with a NaN offset
component the round trip produces NaN coordinates, and NaN is not equal to
itself under the source's `PartialEq`, so the result is not `==` to the
original rectangle (here at the concrete input `r = Rect::ZERO`,
`v = (NaN, 0.0)`; only exact IEEE NaN-propagation branches are involved). -/
theorem claim_C8_counterexample :
    Rect.beq ((Rect.ZERO.with_offset ⟨nan, fin 0⟩).with_negative_offset ⟨nan, fin 0⟩)
      Rect.ZERO = false := by
  decide

/-- C8 (amended): in the unsigned and signed integer domains, with wrapping
(release-mode) arithmetic, the offset round trip
`r.with_offset(v).with_negative_offset(v) == r` holds for every in-range
rectangle and offset; in the float domain the claim fails (NaN offsets, and
IEEE rounding for large magnitudes). -/
theorem claim_C8_amended :
    (∀ (r : URect) (v : V2 ℕ),
      r.top_left.x < 2 ^ 32 → r.top_left.y < 2 ^ 32 →
      r.bottom_right.x < 2 ^ 32 → r.bottom_right.y < 2 ^ 32 →
      v.x < 2 ^ 32 → v.y < 2 ^ 32 →
      (r.with_offset v).with_negative_offset v = r) ∧
    (∀ (r : IRect) (v : V2 ℤ),
      -2 ^ 31 ≤ r.top_left.x → r.top_left.x < 2 ^ 31 →
      -2 ^ 31 ≤ r.top_left.y → r.top_left.y < 2 ^ 31 →
      -2 ^ 31 ≤ r.bottom_right.x → r.bottom_right.x < 2 ^ 31 →
      -2 ^ 31 ≤ r.bottom_right.y → r.bottom_right.y < 2 ^ 31 →
      (r.with_offset v).with_negative_offset v = r) := by
  constructor
  · intro r v h1 h2 h3 h4 h5 h6
    show URect.new
      ⟨u32sub (u32add r.top_left.x v.x) v.x, u32sub (u32add r.top_left.y v.y) v.y⟩
      ⟨u32sub (u32add r.bottom_right.x v.x) v.x,
        u32sub (u32add r.bottom_right.y v.y) v.y⟩ = r
    rw [u32_roundtrip h1 h5, u32_roundtrip h2 h6, u32_roundtrip h3 h5,
      u32_roundtrip h4 h6]
    rfl
  · intro r v h1 h2 h3 h4 h5 h6 h7 h8
    show IRect.new
      ⟨i32sub (i32add r.top_left.x v.x) v.x, i32sub (i32add r.top_left.y v.y) v.y⟩
      ⟨i32sub (i32add r.bottom_right.x v.x) v.x,
        i32sub (i32add r.bottom_right.y v.y) v.y⟩ = r
    rw [i32_roundtrip h1 h2, i32_roundtrip h3 h4, i32_roundtrip h5 h6,
      i32_roundtrip h7 h8]
    rfl

/-- Witness for C8 (amended): a concrete round trip in each integer domain. -/
theorem claim_C8_amended_witness :
    ((1 : ℕ) < 2 ^ 32 ∧ (7 : ℤ) < 2 ^ 31) ∧
    (URect.with_negative_offset (URect.with_offset ⟨⟨1, 2⟩, ⟨3, 4⟩⟩ ⟨5, 6⟩) ⟨5, 6⟩ =
      ⟨⟨1, 2⟩, ⟨3, 4⟩⟩) ∧
    (IRect.with_negative_offset (IRect.with_offset ⟨⟨-1, -2⟩, ⟨3, 7⟩⟩ ⟨5, -6⟩) ⟨5, -6⟩ =
      ⟨⟨-1, -2⟩, ⟨3, 7⟩⟩) :=
  ⟨⟨by decide, by decide⟩,
    claim_C8_amended.1 ⟨⟨1, 2⟩, ⟨3, 4⟩⟩ ⟨5, 6⟩ (by decide) (by decide) (by decide)
      (by decide) (by decide) (by decide),
    claim_C8_amended.2 ⟨⟨-1, -2⟩, ⟨3, 7⟩⟩ ⟨5, -6⟩ (by decide) (by decide) (by decide)
      (by decide) (by decide) (by decide) (by decide) (by decide)⟩

/-- C9: `width()` and `height()` are the corner coordinate differences in
each domain; in the unsigned domain the subtraction underflows (modelled as
`none`) exactly when the corresponding corners are inverted, and under the
non-inverted precondition it returns exactly the difference. -/
theorem claim_C9_width_height :
    (∀ r : Rect, r.width = fsub r.bottom_right.x r.top_left.x ∧
      r.height = fsub r.bottom_right.y r.top_left.y) ∧
    (∀ r : IRect, r.width = i32sub r.bottom_right.x r.top_left.x ∧
      r.height = i32sub r.bottom_right.y r.top_left.y) ∧
    (∀ r : URect,
      (r.width = none ↔ r.bottom_right.x < r.top_left.x) ∧
      (r.height = none ↔ r.bottom_right.y < r.top_left.y) ∧
      (r.top_left.x ≤ r.bottom_right.x →
        r.width = some (r.bottom_right.x - r.top_left.x)) ∧
      (r.top_left.y ≤ r.bottom_right.y →
        r.height = some (r.bottom_right.y - r.top_left.y))) := by
  refine ⟨fun r => ⟨rfl, rfl⟩, fun r => ⟨rfl, rfl⟩,
    fun r => ⟨?_, ?_, fun h => ?_, fun h => ?_⟩⟩
  · simp only [URect.width, u32checkedSub]
    split_ifs with h
    · simp
      omega
    · simp
      omega
  · simp only [URect.height, u32checkedSub]
    split_ifs with h
    · simp
      omega
    · simp
      omega
  · simp only [URect.width, u32checkedSub]
    rw [if_pos h]
  · simp only [URect.height, u32checkedSub]
    rw [if_pos h]

/-- Witness for C9: a concrete non-inverted `URect` whose width evaluates to
the exact difference. -/
theorem claim_C9_witness :
    (1 : ℕ) ≤ 3 ∧ URect.width ⟨⟨1, 2⟩, ⟨3, 5⟩⟩ = some 2 :=
  ⟨by decide, (claim_C9_width_height.2.2 ⟨⟨1, 2⟩, ⟨3, 5⟩⟩).2.2.1 (by decide)⟩
